import Mathlib

/-!
Verification of the MTGA collection tracker core (log extraction and
inventory reconciliation engine) against its natural-language specification.

The Python sources are shallowly embedded: SQLite tables become association
lists, Python dicts become insertion-ordered association lists, exceptions
become `Except Unit`, and the tracker's durable state becomes an explicit
record threaded through the operations.
-/

set_option autoImplicit false

namespace MTGA

/-! ## Store embedding (`src/store.py`)

The `cards` table is `arena_id INTEGER PRIMARY KEY, quantity INTEGER`;
we model it as an association list from arena id to quantity whose keys are
kept unique by the operations (mirroring the primary key). -/

/-- The durable `cards` table: arena id paired with quantity. -/
abbrev Cards := List (Int × Int)

/-- `SELECT quantity FROM cards WHERE arena_id = ?` (first row with the
key; the operations keep keys unique). -/
def getCard : Cards → Int → Option Int
  | [], _ => none
  | (k, q) :: rest, aid => if k == aid then some q else getCard rest aid

/-- One `INSERT ... ON CONFLICT(arena_id) DO UPDATE SET quantity =
MAX(quantity + excluded.quantity, 0)` statement from `Store.apply_deltas`:
on conflict the existing row (unique, `arena_id` is the primary key) is
clamped at zero in place, while a fresh insert stores the raw delta. -/
def applyOne : Cards → Int → Int → Cards
  | [], aid, delta => [(aid, delta)]
  | (k, q) :: rest, aid, delta =>
    if k == aid then (k, max (q + delta) 0) :: rest
    else (k, q) :: applyOne rest aid delta

/-- `Store.apply_deltas`: iterate the delta dict in insertion order, issuing
one upsert per item. An empty dict is a no-op (`if not deltas: return`). -/
def apply_deltas (cs : Cards) (deltas : List (Int × Int)) : Cards :=
  deltas.foldl (fun acc p => applyOne acc p.1 p.2) cs

/-- `Store.replace_cards`: `DELETE FROM cards` then insert every pair of the
given dict. -/
def replace_cards (cards : List (Int × Int)) : Cards :=
  cards

/-- Keys of an association list are pairwise distinct (the Python-dict /
primary-key discipline). -/
def keysNodup (l : List (Int × Int)) : Prop :=
  (l.map (fun p => p.1)).Nodup

instance (l : List (Int × Int)) : Decidable (keysNodup l) := by
  unfold keysNodup; infer_instance

/-- Python-dict accumulation `d[k] = d.get(k, 0) + v`: update the (unique)
binding in place if the key exists, else append. Used by
`Parser._normalise_deltas` and `Tracker._apply_pending_deltas`. -/
def dictAdd : List (Int × Int) → Int → Int → List (Int × Int)
  | [], k, v => [(k, v)]
  | (a, b) :: rest, k, v =>
    if a == k then (a, b + v) :: rest
    else (a, b) :: dictAdd rest k v

/-- Python-dict assignment `d[k] = v`: overwrite the (unique) binding in
place if the key exists, else append. -/
def dictSet : List (Int × Int) → Int → Int → List (Int × Int)
  | [], k, v => [(k, v)]
  | (a, b) :: rest, k, v =>
    if a == k then (a, v) :: rest
    else (a, b) :: dictSet rest k v

/-! ## Tracker embedding (`src/tracker.py`)

The durable tracker state: the `cards` table, the `baseline` state-table
entry (a string, `"missing"` when unset), the insertion-ordered
`pending_deltas` table, the `last_snapshot` state entry, and a counter of
export triggers (`Exporter.export` calls). -/

structure TrackerState where
  cards : Cards
  baseline : String
  pending : List (Int × Int × String)
  lastSnapshot : Option String
  exports : Nat
  deriving Repr, DecidableEq

/-- `Tracker._handle_delta`: while the baseline is not `"complete"`, append
one pending delta per item of the event and return (no record mutation, no
export); otherwise apply the deltas and trigger an export. -/
def handle_delta (st : TrackerState) (deltas : List (Int × Int)) (ts : String) :
    TrackerState :=
  if st.baseline ≠ "complete" then
    { st with pending := st.pending ++ deltas.map (fun p => (p.1, p.2, ts)) }
  else
    { st with cards := apply_deltas st.cards deltas, exports := st.exports + 1 }

/-- `Tracker._apply_pending_deltas`: read the queue in insertion order,
aggregate per item id into a dict, apply the aggregate in one
`apply_deltas` pass, then clear the queue; a no-op when the queue is empty. -/
def apply_pending (st : TrackerState) : TrackerState :=
  if st.pending.isEmpty then st
  else
    let aggregate := st.pending.foldl (fun a p => dictAdd a p.1 p.2.1) []
    { st with cards := apply_deltas st.cards aggregate, pending := [] }

/-- `Tracker._handle_snapshot`: replace the card table with the event's map,
mark the baseline complete, record the observation timestamp, drain pending
deltas, trigger an export. -/
def handle_snapshot (st : TrackerState) (cards : List (Int × Int)) (ts : String) :
    TrackerState :=
  let st1 := { st with
    cards := replace_cards cards, baseline := "complete", lastSnapshot := some ts }
  let st2 := apply_pending st1
  { st2 with exports := st2.exports + 1 }

/-- `Tracker.seed_from_csv` after the CSV has been resolved to a map:
replace the card table, mark the baseline complete, drain pending deltas,
trigger an export. -/
def seedImport (st : TrackerState) (cards : List (Int × Int)) : TrackerState :=
  let st1 := { st with cards := replace_cards cards, baseline := "complete" }
  let st2 := apply_pending st1
  { st2 with exports := st2.exports + 1 }

/-- A sequence of delta events fed through `Tracker._handle_delta`. -/
def applyEvents (st : TrackerState) (events : List (List (Int × Int))) (ts : String) :
    TrackerState :=
  events.foldl (fun s ev => handle_delta s ev ts) st

/-- The delta an event carries for one item (`event.deltas.get(aid)`). -/
def findDelta : List (Int × Int) → Int → Option Int
  | [], _ => none
  | (k, v) :: rest, aid => if k == aid then some v else findDelta rest aid

/-- One event's effect on an item's quantity when the item is already
present: clamp `q + δ` at zero if the event mentions the item, else leave
`q`. -/
def stepQ (aid : Int) (q : Int) (ev : List (Int × Int)) : Int :=
  match findDelta ev aid with
  | some δ => max (q + δ) 0
  | none => q

/-- The per-event left fold of `stepQ` — the corrected final-quantity
formula for an initially present item (claim C3). -/
def eventFold (q : Int) (evs : List (List (Int × Int))) (aid : Int) : Int :=
  evs.foldl (stepQ aid) q

/-! ## Decoded JSON values (`json.loads` output fed to `src/parser.py`)

Python decodes a snippet into nested dicts/lists/strings/numbers/booleans/
null. Dicts are insertion-ordered with unique keys; we model them as
association lists. -/

inductive JVal where
  | jnull : JVal
  | jbool : Bool → JVal
  | jnum : Int → JVal
  | jstr : String → JVal
  | jarr : List JVal → JVal
  | jobj : List (String × JVal) → JVal
  deriving Repr

/-- The fields of a decoded dict. -/
abbrev JProps := List (String × JVal)

/-- Python `str.lower()` (ASCII range, which covers every key the log
emits). -/
def pyLower (s : String) : String :=
  String.mk (s.data.map Char.toLower)

/-- Python `str.upper()`. -/
def pyUpper (s : String) : String :=
  String.mk (s.data.map Char.toUpper)

/-- Python `str.capitalize()`: first character uppercased, the rest
lowercased. -/
def pyCapitalize (s : String) : String :=
  match s.data with
  | [] => ""
  | c :: cs => String.mk (c.toUpper :: cs.map Char.toLower)

/-- Parse an unsigned decimal digit string (none when empty or when any
character is not a digit). -/
def digitsToNatAux : List Char → Nat → Option Nat
  | [], acc => some acc
  | c :: cs, acc =>
    if c.isDigit then digitsToNatAux cs (acc * 10 + (c.toNat - 48)) else none

def digitsToNat : List Char → Option Nat
  | [] => none
  | cs => digitsToNatAux cs 0

/-- `int(s)` on a Python string: surrounding whitespace is stripped, an
optional sign followed by decimal digits is accepted, anything else
raises. -/
def pyStrToInt (s : String) : Option Int :=
  match ((s.data.dropWhile Char.isWhitespace).reverse.dropWhile
      Char.isWhitespace).reverse with
  | '+' :: ds => (digitsToNat ds).map Int.ofNat
  | '-' :: ds => (digitsToNat ds).map (fun n => -(n : Int))
  | ds => (digitsToNat ds).map Int.ofNat

/-- Python `int(value)` as a fail-soft coercion: `none` means the call
raises (`TypeError`/`ValueError`). Booleans coerce to 0/1, numbers to
themselves, numeric strings are parsed; null, lists and dicts raise. -/
def pyInt : JVal → Option Int
  | .jnum n => some n
  | .jbool b => some (if b then 1 else 0)
  | .jstr s => pyStrToInt s
  | _ => none

/-- `d.get(k)` on a decoded dict (first binding wins; decoded dicts have
unique keys). -/
def lookupStr (fs : JProps) (k : String) : Option JVal :=
  (fs.find? (fun p => p.1 == k)).map (fun p => p.2)

/-! ## Parser key tables (`src/parser.py` module constants) -/

/-- `_SNAPSHOT_KEYS`. -/
def snapshotKeys : List String := ["cards", "ownedcards"]

/-- `_DELTA_EVENT_KEYS`. -/
def deltaEventKeys : List String :=
  ["inventorydelta", "inventoryupdated", "boosteropened", "eventreward",
   "rewardgranted", "dailywin", "craftcard", "upgradecard", "vaultprogress",
   "vaultreward", "wildcardgranted"]

/-- `_ID_KEYS`. -/
def idKeys : List String :=
  ["grpid", "grp_id", "titleid", "title_id", "arenaid", "cardid", "mtgaid"]

/-- `_SNAPSHOT_COUNT_KEYS`. -/
def snapshotCountKeys : List String := ["quantity", "qty", "count"]

/-- `_DELTA_COUNT_KEYS`. -/
def deltaCountKeys : List String := ["delta", "quantitydelta", "change", "amount"]

/-! ## Field extraction (`Parser._extract_arena_id`, `Parser._extract_first_int`)

`Except Unit` models an exception escaping the function: the first two
lookup passes of `_extract_arena_id` call `int(...)` without a handler, so
an uncoercible value there produces `.error ()`; only the final generic
`"id"` fallback catches. -/

/-- `Parser._extract_arena_id`. -/
def extract_arena_id (entry : JProps) : Except Unit (Option Int) :=
  match idKeys.findSome? (fun k => lookupStr entry k) with
  | some v =>
    match pyInt v with
    | some n => .ok (some n)
    | none => .error ()
  | none =>
  match entry.findSome? (fun p => if idKeys.contains (pyLower p.1) then some p.2 else none) with
  | some v =>
    match pyInt v with
    | some n => .ok (some n)
    | none => .error ()
  | none =>
  match lookupStr entry "id" with
  | some v => .ok (pyInt v)
  | none => .ok none

/-- One key probe of `Parser._extract_first_int`: `entry.get(key)`, then
`entry.get(key.capitalize())`, then `entry.get(key.upper())`; a stored JSON
null behaves like a missing key (`value is None`). -/
def probeKey (entry : JProps) (k : String) : Option JVal :=
  let get1 := fun (name : String) =>
    match lookupStr entry name with
    | some .jnull => none
    | v => v
  get1 k <|> get1 (pyCapitalize k) <|> get1 (pyUpper k)

/-- `Parser._extract_first_int`: first key whose value coerces; coercion
failures fall through to the next key (the `try`/`except` catches). -/
def extract_first_int (entry : JProps) (keys : List String) : Option Int :=
  keys.findSome? (fun k =>
    match probeKey entry k with
    | none => none
    | some v => pyInt v)

/-! ## Generic traversal (`Parser._walk_dict`, `Parser._ensure_list`,
`Parser._collect_card_like_entries`, `Parser._find_card_entries`) -/

/-- `Parser._ensure_list`. -/
def ensure_list : JVal → List JVal
  | .jarr xs => xs
  | v => [v]

/-- The dict entries of a list of values, in order (the
`isinstance(entry, dict)` filter of `_collect_card_like_entries` and the
inner filter of `_find_card_entries`). -/
def dictsOf (xs : List JVal) : List JProps :=
  xs.filterMap (fun v => match v with | .jobj fs => some fs | _ => none)

mutual

/-- `Parser._walk_dict`: pre-order walk yielding every dict pair with its
key lowercased. -/
def walk_dict : JVal → List (String × JVal)
  | .jobj fs => walkFields fs
  | .jarr xs => walkListVals xs
  | _ => []

def walkFields : List (String × JVal) → List (String × JVal)
  | [] => []
  | (k, v) :: rest => (pyLower k, v) :: walk_dict v ++ walkFields rest

def walkListVals : List JVal → List (String × JVal)
  | [] => []
  | v :: rest => walk_dict v ++ walkListVals rest

end

mutual

/-- `Parser._collect_card_like_entries`: recursively collect dict entries
with their sign — `adds`-style keys give multiplier `+1`, `removes`-style
keys `-1`, generic `changes`/`cards`/`deltas` keys `+1`; other values are
recursed into. Non-dict entries are filtered out. -/
def collect_entries : JVal → List (JProps × Int)
  | .jobj fs => collectFields fs
  | .jarr xs => collectListVals xs
  | _ => []

def collectFields : List (String × JVal) → List (JProps × Int)
  | [] => []
  | (k, v) :: rest =>
    (let lower := pyLower k
     if ["adds", "addedcards", "grantedcards"].contains lower then
       (dictsOf (ensure_list v)).map (fun e => (e, (1 : Int)))
     else if ["removes", "removedcards", "spentcards"].contains lower then
       (dictsOf (ensure_list v)).map (fun e => (e, (-1 : Int)))
     else if ["changes", "cards", "deltas"].contains lower then
       (dictsOf (ensure_list v)).map (fun e => (e, (1 : Int)))
     else collect_entries v)
    ++ collectFields rest

def collectListVals : List JVal → List (JProps × Int)
  | [] => []
  | v :: rest => collect_entries v ++ collectListVals rest

end

mutual

/-- `Parser._find_card_entries` specialised to `_SNAPSHOT_KEYS` (the only
call site): collect the dict entries listed under a `cards`/`ownedcards`
key, recursing elsewhere. -/
def find_card_entries : JVal → List JProps
  | .jobj fs => findFields fs
  | .jarr xs => findListVals xs
  | _ => []

def findFields : List (String × JVal) → List JProps
  | [] => []
  | (k, v) :: rest =>
    (if snapshotKeys.contains (pyLower k) then dictsOf (ensure_list v)
     else find_card_entries v)
    ++ findFields rest

def findListVals : List JVal → List JProps
  | [] => []
  | v :: rest => find_card_entries v ++ findListVals rest

end

/-! ## Event normalization and classification (`src/parser.py`) -/

/-- The per-entry change `_normalise_deltas` computes once an arena id was
resolved: an explicit delta field times the multiplier, else an absolute
quantity field times the multiplier, else `none` (entry skipped). -/
def entryChange (entry : JProps) (mult : Int) : Option Int :=
  match extract_first_int entry deltaCountKeys with
  | some d => some (d * mult)
  | none =>
    match extract_first_int entry snapshotCountKeys with
    | some q => some (q * mult)
    | none => none

/-- The loop of `Parser._normalise_deltas` over the collected entries,
accumulating the per-item dict; entries without a resolvable id or
magnitude are skipped, as is any entry whose computed change is exactly 0.
An uncoercible id raises (`.error`). -/
def normalise_go : List (JProps × Int) → List (Int × Int) →
    Except Unit (List (Int × Int))
  | [], acc => .ok acc
  | (entry, mult) :: rest, acc =>
    match extract_arena_id entry with
    | .error e => .error e
    | .ok none => normalise_go rest acc
    | .ok (some aid) =>
      match entryChange entry mult with
      | none => normalise_go rest acc
      | some change =>
        if change == 0 then normalise_go rest acc
        else normalise_go rest (dictAdd acc aid change)

/-- `Parser._normalise_deltas`. -/
def normalise_deltas (value : JVal) : Except Unit (List (Int × Int)) :=
  normalise_go (collect_entries value) []

/-- The loop of `Parser._extract_snapshot_cards` over the found entries:
each entry must yield an id and a quantity, negative quantities clamp to 0;
the id lookup can raise. -/
def snapshot_go : List JProps → List (Int × Int) →
    Except Unit (List (Int × Int))
  | [], acc => .ok acc
  | entry :: rest, acc =>
    match extract_arena_id entry with
    | .error e => .error e
    | .ok none => snapshot_go rest acc
    | .ok (some aid) =>
      match extract_first_int entry snapshotCountKeys with
      | none => snapshot_go rest acc
      | some q => snapshot_go rest (dictSet acc aid (max q 0))

/-- `Parser._extract_snapshot_cards`. -/
def extract_snapshot_cards (obj : JVal) : Except Unit (List (Int × Int)) :=
  snapshot_go (find_card_entries obj) []

/-- The generator `Parser._extract_delta_events` materialised over the walk
of the object: every walked pair whose (lowercased) key is a delta event
key contributes its normalised payload when non-empty. -/
def delta_events_go : List (String × JVal) →
    Except Unit (List (String × List (Int × Int)))
  | [] => .ok []
  | (k, v) :: rest =>
    if deltaEventKeys.contains k then
      match normalise_deltas v with
      | .error e => .error e
      | .ok ds =>
        match delta_events_go rest with
        | .error e => .error e
        | .ok acc => .ok ((if ds.isEmpty then [] else [(k, ds)]) ++ acc)
    else delta_events_go rest

/-- `Parser._extract_delta_events`. -/
def extract_delta_events (obj : JVal) : Except Unit (List (String × List (Int × Int))) :=
  delta_events_go (walk_dict obj)

/-- A `ParsedEvent`: `SnapshotEvent` or `DeltaEvent` (the `raw` diagnostic
payload is not modelled). -/
inductive Event where
  | snap : List (Int × Int) → String → Event
  | delta : List (Int × Int) → String → Event
  deriving Repr, DecidableEq

/-- Is the event a snapshot? -/
def Event.isSnap : Event → Bool
  | .snap _ _ => true
  | .delta _ _ => false

/-- `Parser._parse_json_object`: non-dicts yield nothing; delta events are
extracted first and, when any exist, returned alone; otherwise a non-empty
snapshot map yields one snapshot event; otherwise nothing. -/
def parse_json_object (obj : JVal) : Except Unit (List Event) :=
  match obj with
  | .jobj _ =>
    match extract_delta_events obj with
    | .error e => .error e
    | .ok des =>
      let delta_events := (des.filter (fun p => !p.2.isEmpty)).map
        (fun p => Event.delta p.2 p.1)
      if !delta_events.isEmpty then .ok delta_events
      else
        match extract_snapshot_cards obj with
        | .error e => .error e
        | .ok cards =>
          if !cards.isEmpty then .ok [Event.snap cards "snapshot"]
          else .ok []
  | _ => .ok []

/-! ## Metadata merge embedding (`src/mapping.py`) -/

/-- A raw Scryfall candidate record, reduced to the fields
`MappingManager._write_mapping` and `MappingManager._prefer` read:
`arena_id` (already coerced; `none` when absent), `name`, `set`, `rarity`,
`set_type` and `released_at` (each read through `str(...)`, so plain
strings here). -/
structure RawCard where
  arena_id : Option Int
  name : String
  set_code : String
  rarity : String
  set_type : String
  released_at : String
  deriving Repr, DecidableEq

/-- Python string `<` (lexicographic over code points). -/
def pyStrLt : List Char → List Char → Bool
  | [], [] => false
  | [], _ :: _ => true
  | _ :: _, [] => false
  | a :: as, b :: bs => if a < b then true else if b < a then false else pyStrLt as bs

/-- Python string `>=`. -/
def pyStrGe (a b : String) : Bool :=
  ! pyStrLt a.data b.data

/-- `MappingManager._prefer`: should `new` replace `current`? A non-promo
candidate beats a promo one; otherwise the later (or equal) release date
wins. -/
def prefer (new cur : RawCard) : Bool :=
  if cur.set_type == "promo" && new.set_type != "promo" then true
  else if new.set_type == "promo" && cur.set_type != "promo" then false
  else pyStrGe new.released_at cur.released_at

/-- The association list from arena id to the retained candidate. -/
abbrev Chosen := List (Int × RawCard)

/-- `chosen[arena_id]` lookup. -/
def chosenGet : Chosen → Int → Option RawCard
  | [], _ => none
  | (k, c) :: rest, aid => if k == aid then some c else chosenGet rest aid

/-- `chosen[arena_id] = card` (dict assignment: overwrite the unique
binding in place or append). -/
def chosenSet : Chosen → Int → RawCard → Chosen
  | [], aid, card => [(aid, card)]
  | (k, c) :: rest, aid, card =>
    if k == aid then (k, card) :: rest
    else (k, c) :: chosenSet rest aid card

/-- One iteration of the `_write_mapping` loop: skip candidates without an
arena id, keep the incumbent unless `_prefer` says the newcomer wins. -/
def mergeStep (chosen : Chosen) (card : RawCard) : Chosen :=
  match card.arena_id with
  | none => chosen
  | some aid =>
    match chosenGet chosen aid with
    | some cur => if prefer card cur then chosenSet chosen aid card else chosen
    | none => chosenSet chosen aid card

/-- The candidate-selection loop of `MappingManager._write_mapping` (the
rows subsequently written to the store are a field projection of this
map). -/
def write_mapping (cards : List RawCard) : Chosen :=
  cards.foldl mergeStep []

/-! ## Tailer embedding (`src/tailer.py`)

A poll cycle observes either no file or a file with an inode and a textual
content; `stat.st_size` and `handle.tell()` are modelled as character
counts of the content. -/

/-- What one `path.stat()`/`open` observes. -/
structure FSnap where
  ino : Nat
  content : String
  deriving Repr, DecidableEq

/-- The tailer's cursor: `_offset`, `_inode`, `_last_size`. -/
structure TailState where
  offset : Nat
  inode : Option Nat
  lastSize : Nat
  deriving Repr, DecidableEq

/-- A fresh `FileTailer`'s cursor. -/
def initTail : TailState := { offset := 0, inode := none, lastSize := 0 }

/-- Split a character stream into `readline` results: maximal segments each
ending in a newline, plus a trailing newline-less remainder when present. -/
def splitLinesAll : List Char → List (List Char)
  | [] => []
  | c :: cs =>
    if c = '\n' then [c] :: splitLinesAll cs
    else
      match splitLinesAll cs with
      | [] => [[c]]
      | l :: ls => (c :: l) :: ls

/-- `line.rstrip("\n")`. -/
def rstripNl (l : List Char) : String :=
  String.mk ((l.reverse.dropWhile (fun c => c = '\n')).reverse)

/-- The read offset one poll cycle uses: reset to 0 when the file identity
changed since last seen (`file_was_rotated`) or the size shrank
(`size_shrunk`), else the stored offset. -/
def effOffset (st : TailState) (f : FSnap) : Nat :=
  if (st.inode ≠ none ∧ st.inode ≠ some f.ino) ∨ f.content.length < st.lastSize
  then 0 else st.offset

/-- One poll cycle of `FileTailer.follow`: a missing file resets the offset
and forgets the inode; a present file is read from `effOffset` to
end-of-file, each line yielded with its trailing newline stripped, and the
cursor advanced to the end. -/
def pollStep (st : TailState) (obs : Option FSnap) : TailState × List String :=
  match obs with
  | none => ({ offset := 0, inode := none, lastSize := st.lastSize }, [])
  | some f =>
    let off := effOffset st f
    let lines := (splitLinesAll (f.content.data.drop off)).map rstripNl
    ({ offset := f.content.length, inode := some f.ino,
       lastSize := f.content.length }, lines)

/-- Run `follow` over a sequence of poll observations, accumulating the
yielded lines in order. -/
def followAll (st : TailState) : List (Option FSnap) → TailState × List String
  | [] => (st, [])
  | obs :: rest =>
    let (st1, lines) := pollStep st obs
    let (st2, more) := followAll st1 rest
    (st2, lines ++ more)

/-! ## Lemmas about the card table -/

/-- Updating a present item clamps at zero. -/
theorem getCard_applyOne_present (cs : Cards) (aid δ q : Int)
    (h : getCard cs aid = some q) :
    getCard (applyOne cs aid δ) aid = some (max (q + δ) 0) := by
  induction cs with
  | nil => simp [getCard] at h
  | cons p rest ih =>
    rcases p with ⟨a, b⟩
    by_cases ha : a = aid
    · subst ha
      have hb : b = q := by simpa [getCard] using h
      subst hb
      simp [getCard, applyOne]
    · have ha' : (a == aid) = false := by simpa using ha
      have hrest : getCard rest aid = some q := by simpa [getCard, ha'] using h
      simpa [getCard, applyOne, ha'] using ih hrest

/-- Inserting an absent item stores the raw delta, unclamped. -/
theorem getCard_applyOne_absent (cs : Cards) (aid δ : Int)
    (h : getCard cs aid = none) :
    getCard (applyOne cs aid δ) aid = some δ := by
  induction cs with
  | nil => simp [getCard, applyOne]
  | cons p rest ih =>
    rcases p with ⟨a, b⟩
    have ha : (a == aid) = false := by
      cases hb : (a == aid) with
      | false => rfl
      | true => simp [getCard, hb] at h
    have hrest : getCard rest aid = none := by simpa [getCard, ha] using h
    simpa [getCard, applyOne, ha] using ih hrest

/-- A delta for a different item never changes this item's row. -/
theorem getCard_applyOne_ne (cs : Cards) (k δ aid : Int) (hne : k ≠ aid) :
    getCard (applyOne cs k δ) aid = getCard cs aid := by
  induction cs with
  | nil =>
    have hk : (k == aid) = false := by simpa using hne
    simp [getCard, applyOne, hk]
  | cons p rest ih =>
    rcases p with ⟨a, b⟩
    by_cases hak : a = k
    · subst hak
      have ha : (a == aid) = false := by simpa using hne
      simp [getCard, applyOne, ha]
    · have hak' : (a == k) = false := by simpa using hak
      by_cases ha : a = aid
      · subst ha
        simp [getCard, applyOne, hak']
      · have ha' : (a == aid) = false := by simpa using ha
        simpa [getCard, applyOne, hak', ha'] using ih

/-- A delta dict not mentioning an item leaves its row unchanged. -/
theorem getCard_apply_deltas_notmem (ds : List (Int × Int)) (cs : Cards) (aid : Int)
    (h : ∀ p ∈ ds, p.1 ≠ aid) :
    getCard (apply_deltas cs ds) aid = getCard cs aid := by
  induction ds generalizing cs with
  | nil => rfl
  | cons p rest ih =>
    rcases p with ⟨k, v⟩
    have hk : k ≠ aid := h (k, v) (by simp)
    simp only [apply_deltas, List.foldl_cons]
    rw [show (List.foldl (fun acc p => applyOne acc p.1 p.2) (applyOne cs k v) rest)
        = apply_deltas (applyOne cs k v) rest from rfl]
    rw [ih (applyOne cs k v) (fun q hq => h q (by simp [hq]))]
    exact getCard_applyOne_ne cs k v aid hk

/-! ## Claim C10 -/

/-- C10: for every delta dict applied via `apply_deltas` and every item id
not currently present in the durable card table, the resulting stored
quantity is exactly the delta value as given — the MAX-with-0 clamp fires
only on the conflict (update) path, never on this insertion path. -/
theorem apply_deltas_insert_unclamped (ds : List (Int × Int)) (cs : Cards)
    (aid d : Int) (hnodup : keysNodup ds) (hmem : (aid, d) ∈ ds)
    (habs : getCard cs aid = none) :
    getCard (apply_deltas cs ds) aid = some d := by
  induction ds generalizing cs with
  | nil => cases hmem
  | cons p rest ih =>
    rcases p with ⟨k, v⟩
    have hkeys : k ∉ rest.map (fun p => p.1) := by
      have := hnodup
      simp only [keysNodup, List.map_cons, List.nodup_cons] at this
      exact this.1
    have hrestnodup : keysNodup rest := by
      have := hnodup
      simp only [keysNodup, List.map_cons, List.nodup_cons] at this
      exact this.2
    rcases List.mem_cons.1 hmem with heq | hrest
    · injection heq with hk hv
      subst hk; subst hv
      simp only [apply_deltas, List.foldl_cons]
      rw [show (List.foldl (fun acc p => applyOne acc p.1 p.2) (applyOne cs aid d) rest)
          = apply_deltas (applyOne cs aid d) rest from rfl]
      rw [getCard_apply_deltas_notmem rest (applyOne cs aid d) aid
        (fun q hq hq1 => hkeys (by
          subst hq1
          exact List.mem_map.2 ⟨q, hq, rfl⟩))]
      exact getCard_applyOne_absent cs aid d habs
    · have hk : k ≠ aid := fun hcontra =>
        hkeys (List.mem_map.2 ⟨(aid, d), hrest, hcontra.symm⟩)
      simp only [apply_deltas, List.foldl_cons]
      rw [show (List.foldl (fun acc p => applyOne acc p.1 p.2) (applyOne cs k v) rest)
          = apply_deltas (applyOne cs k v) rest from rfl]
      exact ih (applyOne cs k v) hrestnodup hrest
        ((getCard_applyOne_ne cs k v aid hk).trans habs)

/-- Witness for C10: inserting the delta −4 for absent item 5 stores −4. -/
theorem apply_deltas_insert_unclamped_witness :
    keysNodup [((5 : Int), (-4 : Int))] ∧
    getCard [] 5 = none ∧
    getCard (apply_deltas [] [((5 : Int), (-4 : Int))]) 5 = some (-4) :=
  ⟨by decide, rfl,
    apply_deltas_insert_unclamped [(5, -4)] [] 5 (-4) (by decide) (by decide) rfl⟩

/-! ## Claim C4 -/

/-- C4: a delta event processed while the baseline is `missing` leaves the
collection record untouched, triggers no export, and durably appends one
pending-delta entry per item of the event (all stamped with the event's
timestamp), in event order. -/
theorem handle_delta_missing_queues (st : TrackerState) (ds : List (Int × Int))
    (ts : String) (h : st.baseline = "missing") :
    (handle_delta st ds ts).cards = st.cards ∧
    (handle_delta st ds ts).exports = st.exports ∧
    (handle_delta st ds ts).pending
      = st.pending ++ ds.map (fun p => (p.1, p.2, ts)) ∧
    (handle_delta st ds ts).baseline = st.baseline := by
  have h' : st.baseline ≠ "complete" := by rw [h]; decide
  simp [handle_delta, h']

/-- Witness for C4 at a concrete missing-baseline state. -/
theorem handle_delta_missing_queues_witness :
    (handle_delta ⟨[(1, 4)], "missing", [], none, 0⟩ [(2, 3), (7, -1)] "ts").cards
        = [(1, 4)] ∧
    (handle_delta ⟨[(1, 4)], "missing", [], none, 0⟩ [(2, 3), (7, -1)] "ts").exports
        = 0 ∧
    (handle_delta ⟨[(1, 4)], "missing", [], none, 0⟩ [(2, 3), (7, -1)] "ts").pending
        = [(2, 3, "ts"), (7, -1, "ts")] := by
  have h := handle_delta_missing_queues ⟨[(1, 4)], "missing", [], none, 0⟩
    [(2, 3), (7, -1)] "ts" rfl
  exact ⟨h.1, h.2.1, h.2.2.1⟩

/-! ## Claim C1 (code bug)

The spec's invariant `Quantity(item) ≥ 0` is violated on a reachable state:
seed an empty baseline (a header-only seed CSV), then process a delta event
removing 3 copies of an item that is not in the table. `apply_deltas`
inserts the raw delta −3 because the `MAX(..., 0)` clamp sits only on the
`ON CONFLICT` update arm of the SQL. -/

/-- C1: after seeding an empty baseline and applying the delta −3 for the
absent item 9, the durable record holds quantity −3, violating the
`Quantity ≥ 0` invariant. -/
theorem quantity_invariant_violated :
    getCard (handle_delta (seedImport ⟨[], "missing", [], none, 0⟩ [])
        [(9, -3)] "t").cards 9 = some (-3) ∧
    ¬ (0 : Int) ≤ -3 := by
  constructor
  · rfl
  · decide

/-! ## Claim C2 (code bug)

Drained pending deltas are aggregated per item and applied in a single
pass, and the queue is cleared — but an item absent from the snapshot whose
queued net is negative is inserted with that raw negative net instead of
the clamped `max(0, net)` the spec requires. -/

/-- C2: queue delta −2 for item 55555 while the baseline is missing, then
receive the snapshot `{12345: 2}`: the queue is drained and cleared, but
item 55555 ends at −2 where the claim requires `max(0, 0 + (−2)) = 0`. -/
theorem pending_drain_unclamped :
    (handle_snapshot ⟨[], "missing", [(55555, -2, "t0")], none, 0⟩
        [(12345, 2)] "t1").cards = [(12345, 2), (55555, -2)] ∧
    (handle_snapshot ⟨[], "missing", [(55555, -2, "t0")], none, 0⟩
        [(12345, 2)] "t1").pending = [] ∧
    getCard [(12345, 2), (55555, -2)] 55555 = some (-2) ∧
    max 0 (0 + (-2 : Int)) = 0 := by
  refine ⟨rfl, rfl, rfl, by decide⟩

/-! ## Claim C3 (corrected)

The spec formula `final = max(0, initial + sum of applied signed deltas)`
is wrong on two counts: clamping happens per event, not once over the total
sum, and an item first introduced by a delta event is inserted with its raw
(unclamped) delta. The per-event stepwise characterisation below is what
the code implements. -/

/-- Counterexample to C3 as stated: item 1 starts at 1; the events
`{1: −5}` then `{1: +3}` leave it at 3, while the claimed formula gives
`max(0, 1 + (−5 + 3)) = 0`; moreover the absent item 9 hit with `{9: −3}`
ends at −3, not `max(0, 0 − 3) = 0`. -/
theorem final_formula_counterexample :
    getCard (applyEvents ⟨[(1, 1)], "complete", [], none, 0⟩
        [[(1, -5)], [(1, 3)]] "t").cards 1 = some 3 ∧
    max 0 (1 + (-5 + 3) : Int) = 0 ∧
    getCard (applyEvents ⟨[], "complete", [], none, 0⟩ [[(9, -3)]] "t").cards 9
        = some (-3) ∧
    max 0 (0 + (-3) : Int) = 0 :=
  ⟨rfl, by decide, rfl, by decide⟩

/-- Applying one delta dict to a present item clamps per application. -/
theorem getCard_apply_deltas_present (ev : List (Int × Int)) (cs : Cards)
    (aid q : Int) (hnodup : keysNodup ev) (hq : getCard cs aid = some q) :
    getCard (apply_deltas cs ev) aid = some (stepQ aid q ev) := by
  induction ev generalizing cs q with
  | nil => simpa [apply_deltas, stepQ, findDelta] using hq
  | cons p rest ih =>
    rcases p with ⟨k, v⟩
    have hkeys : k ∉ rest.map (fun p => p.1) := by
      have := hnodup
      simp only [keysNodup, List.map_cons, List.nodup_cons] at this
      exact this.1
    have hrestnodup : keysNodup rest := by
      have := hnodup
      simp only [keysNodup, List.map_cons, List.nodup_cons] at this
      exact this.2
    by_cases hk : k = aid
    · subst hk
      simp only [apply_deltas, List.foldl_cons]
      rw [show (List.foldl (fun acc p => applyOne acc p.1 p.2) (applyOne cs k v) rest)
          = apply_deltas (applyOne cs k v) rest from rfl]
      rw [getCard_apply_deltas_notmem rest (applyOne cs k v) k
        (fun x hx hx1 => hkeys (by
          subst hx1
          exact List.mem_map.2 ⟨x, hx, rfl⟩))]
      rw [getCard_applyOne_present cs k v q hq]
      simp [stepQ, findDelta]
    · have hk' : (k == aid) = false := by simpa using hk
      simp only [apply_deltas, List.foldl_cons]
      rw [show (List.foldl (fun acc p => applyOne acc p.1 p.2) (applyOne cs k v) rest)
          = apply_deltas (applyOne cs k v) rest from rfl]
      rw [ih (applyOne cs k v) q hrestnodup
        ((getCard_applyOne_ne cs k v aid hk).trans hq)]
      simp [stepQ, findDelta, hk']

/-- C3 amended: while the baseline is `complete`, an item present in the
initial record with quantity `q` ends a sequence of delta events at the
left fold of per-event clamped applications `q ↦ max(0, q + δ)` — the
clamp is applied at each event, not once over the summed deltas (and an
item first introduced by a delta event is inserted with its raw delta,
see C10). -/
theorem applyEvents_stepwise (evs : List (List (Int × Int)))
    (st : TrackerState) (aid q : Int) (ts : String)
    (hb : st.baseline = "complete")
    (hnodup : ∀ ev ∈ evs, keysNodup ev)
    (hq : getCard st.cards aid = some q) :
    getCard (applyEvents st evs ts).cards aid = some (eventFold q evs aid) := by
  induction evs generalizing st q with
  | nil => simpa [applyEvents, eventFold] using hq
  | cons ev rest ih =>
    have hne : ¬ st.baseline ≠ "complete" := by simp [hb]
    have hstep : handle_delta st ev ts
        = { st with cards := apply_deltas st.cards ev, exports := st.exports + 1 } := by
      simp [handle_delta, hne]
    have hcards : getCard (handle_delta st ev ts).cards aid = some (stepQ aid q ev) := by
      rw [hstep]
      exact getCard_apply_deltas_present ev st.cards aid q (hnodup ev (by simp)) hq
    have hbase : (handle_delta st ev ts).baseline = "complete" := by
      rw [hstep]; exact hb
    have := ih (handle_delta st ev ts) (stepQ aid q ev) hbase
      (fun e he => hnodup e (by simp [he])) hcards
    simpa [applyEvents, eventFold] using this

/-- Witness for the amended C3: item 1 starts at 1, events `{1: −5}` then
`{1: +3}` end at the stepwise fold value 3. -/
theorem applyEvents_stepwise_witness :
    getCard (applyEvents ⟨[(1, 1)], "complete", [], none, 0⟩
        [[(1, -5)], [(1, 3)]] "t").cards 1 = some (eventFold 1 [[(1, -5)], [(1, 3)]] 1) ∧
    eventFold 1 [[(1, -5)], [(1, 3)]] 1 = 3 :=
  ⟨applyEvents_stepwise [[(1, -5)], [(1, 3)]] ⟨[(1, 1)], "complete", [], none, 0⟩
      1 1 "t" rfl (by decide) rfl, by decide⟩

/-! ## Claim C5 (corrected)

`_normalise_deltas` suppresses an entry whose *individually computed*
change is 0 (`if change == 0: continue`); it does not remove an item whose
several nonzero contributions sum to 0 — such an item stays in the event
map with value 0. -/

/-- Counterexample to C5 as stated: two entries contributing +2 and −2 for
item 7 leave the item *present* in the normalised map, with value 0, rather
than absent. -/
theorem net_zero_not_omitted :
    normalise_deltas (.jobj [("changes", .jarr [
        .jobj [("grpid", .jnum 7), ("delta", .jnum 2)],
        .jobj [("grpid", .jnum 7), ("delta", .jnum (-2))]])])
      = Except.ok [(7, 0)] ∧
    findDelta [(7, 0)] 7 = some 0 :=
  ⟨rfl, rfl⟩

/-- C5 amended: an entry whose individually computed change is exactly 0 is
skipped and contributes nothing to the event map (per-entry no-op
suppression); items whose several nonzero contributions cancel remain in
the map with value 0. -/
theorem normalise_zero_entry_skipped (entry : JProps) (mult : Int)
    (rest : List (JProps × Int)) (acc : List (Int × Int)) (aid : Int)
    (hid : extract_arena_id entry = .ok (some aid))
    (hzero : entryChange entry mult = some 0) :
    normalise_go ((entry, mult) :: rest) acc = normalise_go rest acc := by
  simp [normalise_go, hid, hzero]

/-- Witness for the amended C5: an entry with delta 0 yields nothing. -/
theorem normalise_zero_entry_skipped_witness :
    normalise_go [([("grpid", JVal.jnum 7), ("delta", JVal.jnum 0)], 1)] []
      = Except.ok [] :=
  (normalise_zero_entry_skipped [("grpid", JVal.jnum 7), ("delta", JVal.jnum 0)]
      1 [] [] 7 rfl rfl).trans rfl

/-! ## Claim C6 (code bug)

The spec requires id/quantity coercion never to raise, but the first two
lookup passes of `Parser._extract_arena_id` call `int(entry[key])` outside
any `try`: a non-numeric string under `"grpid"` raises `ValueError`, which
escapes `parse_line` (only `jsonutil.loads` failures are caught there). -/

/-- C6: the entry `{"grpid": "abc", "delta": 1}` makes `_extract_arena_id`
raise, and the exception propagates out of the object classification (and
hence out of `parse_line`) instead of the single entry being skipped. -/
theorem arena_id_coercion_raises :
    extract_arena_id [("grpid", JVal.jstr "abc"), ("delta", JVal.jnum 1)]
      = .error () ∧
    parse_json_object (.jobj [("inventorydelta", .jobj [("changes", .jarr
        [.jobj [("grpid", JVal.jstr "abc"), ("delta", JVal.jnum 1)]])])])
      = .error () :=
  ⟨rfl, rfl⟩

/-! ## Claim C7 -/

/-- Every payload yielded by the delta-event extraction is non-empty (the
generator only yields a matched key when its normalised dict is truthy). -/
theorem delta_events_go_nonempty (l : List (String × JVal))
    (des : List (String × List (Int × Int)))
    (h : delta_events_go l = .ok des) :
    ∀ p ∈ des, p.2 ≠ [] := by
  induction l generalizing des with
  | nil =>
    simp only [delta_events_go] at h
    injection h with h'
    subst h'
    intro p hp
    cases hp
  | cons kv rest ih =>
    rcases kv with ⟨k, v⟩
    simp only [delta_events_go] at h
    by_cases hk : deltaEventKeys.contains k = true
    · rw [if_pos hk] at h
      cases hnorm : normalise_deltas v with
      | error e => rw [hnorm] at h; cases h
      | ok ds =>
        rw [hnorm] at h
        cases hrec : delta_events_go rest with
        | error e => rw [hrec] at h; cases h
        | ok acc =>
          rw [hrec] at h
          injection h with h'
          subst h'
          intro p hp
          rcases List.mem_append.1 hp with hp1 | hp2
          · by_cases hds : ds.isEmpty = true
            · rw [if_pos hds] at hp1; cases hp1
            · rw [if_neg hds] at hp1
              have hp1' : p = (k, ds) := by simpa using hp1
              subst hp1'
              simpa [List.isEmpty_iff] using hds
          · exact ih acc hrec p hp2
    · rw [if_neg hk] at h
      exact ih des h

/-- C7: on a decoded dict, classification is exclusive with delta priority:
a snapshot event is produced only when no delta key matched (and then it is
the whole, non-empty output); when delta extraction yields anything, the
output is exactly one delta event per matching key and no snapshot; and
with no delta match and no normalizable snapshot the object yields
nothing. -/
theorem parse_priority (fs : JProps) (evs : List Event)
    (h : parse_json_object (.jobj fs) = .ok evs) :
    (∀ cards src, Event.snap cards src ∈ evs →
        extract_delta_events (.jobj fs) = .ok [] ∧
        evs = [Event.snap cards src] ∧ cards ≠ [])
    ∧ (∀ des, extract_delta_events (.jobj fs) = .ok des → des ≠ [] →
        evs = des.map (fun p => Event.delta p.2 p.1))
    ∧ (extract_delta_events (.jobj fs) = .ok [] →
        extract_snapshot_cards (.jobj fs) = .ok [] → evs = []) := by
  simp only [parse_json_object] at h
  cases hde : extract_delta_events (.jobj fs) with
  | error e => rw [hde] at h; cases h
  | ok des =>
    rw [hde] at h
    dsimp only at h
    have hne : ∀ p ∈ des, p.2 ≠ [] :=
      delta_events_go_nonempty (walk_dict (.jobj fs)) des hde
    have hfilter : des.filter (fun p => !p.2.isEmpty) = des := by
      apply List.filter_eq_self.2
      intro p hp
      simpa [List.isEmpty_iff] using hne p hp
    rw [hfilter] at h
    by_cases hdes : des = []
    · subst hdes
      simp only [List.map_nil, List.isEmpty_nil, Bool.not_true,
        Bool.false_eq_true, if_false] at h
      cases hsc : extract_snapshot_cards (.jobj fs) with
      | error e => rw [hsc] at h; cases h
      | ok cards =>
        rw [hsc] at h
        dsimp only at h
        by_cases hc : cards.isEmpty = true
        · rw [hc] at h
          simp only [Bool.not_true, Bool.false_eq_true, if_false] at h
          injection h with h'
          subst h'
          refine ⟨fun cards' src' hmem => absurd hmem (by simp), ?_, ?_⟩
          · intro des' hdes' hne'
            injection hdes' with h''
            exact absurd h''.symm hne'
          · intro _ _
            rfl
        · have hc' : cards.isEmpty = false := by
            cases hcc : cards.isEmpty with
            | false => rfl
            | true => exact absurd hcc hc
          rw [hc'] at h
          simp only [Bool.not_false, if_true] at h
          injection h with h'
          subst h'
          have hcne : cards ≠ [] := by
            simpa [List.isEmpty_iff] using hc
          refine ⟨?_, ?_, ?_⟩
          · intro cards' src' hmem
            have hm : Event.snap cards' src' = Event.snap cards "snapshot" := by
              simpa using hmem
            injection hm with hcards hsrc
            subst hcards
            subst hsrc
            exact ⟨rfl, rfl, hcne⟩
          · intro des' hdes' hne'
            injection hdes' with h''
            exact absurd h''.symm hne'
          · intro _ hsc'
            injection hsc' with h''
            exact absurd h'' hcne
    · have hmapne : (des.map (fun p => Event.delta p.2 p.1)).isEmpty = false := by
        cases des with
        | nil => exact absurd rfl hdes
        | cons p rest => simp
      rw [hmapne] at h
      simp only [Bool.not_false, if_true] at h
      injection h with h'
      subst h'
      refine ⟨?_, ?_, ?_⟩
      · intro cards' src' hmem
        rcases List.mem_map.1 hmem with ⟨p, hp, heq⟩
        exact Event.noConfusion heq
      · intro des' hdes' hne'
        injection hdes' with h''
        rw [h'']
      · intro hnil
        injection hnil with h''
        exact absurd h'' hdes

/-- Witness for C7: an object carrying both an `inventorydelta` payload and
a `cards` snapshot list yields only the delta event. -/
theorem parse_priority_witness :
    parse_json_object (.jobj [("inventorydelta", .jobj [("changes", .jarr
        [.jobj [("grpid", JVal.jnum 5), ("delta", JVal.jnum 2)]])]),
      ("cards", .jarr [.jobj [("grpid", JVal.jnum 1), ("qty", JVal.jnum 3)]])])
      = .ok [Event.delta [(5, 2)] "inventorydelta"] ∧
    [Event.delta [(5, 2)] "inventorydelta"]
      = [("inventorydelta", [((5 : Int), (2 : Int))])].map
          (fun p => Event.delta p.2 p.1) :=
  ⟨rfl,
    (parse_priority
        [("inventorydelta", .jobj [("changes", .jarr
          [.jobj [("grpid", JVal.jnum 5), ("delta", JVal.jnum 2)]])]),
         ("cards", .jarr [.jobj [("grpid", JVal.jnum 1), ("qty", JVal.jnum 3)]])]
        [Event.delta [(5, 2)] "inventorydelta"] rfl).2.1
      [("inventorydelta", [(5, 2)])] rfl (by decide)⟩

/-! ## Claim C8 -/

/-- Python string `<` is asymmetric. -/
theorem pyStrLt_asymm : ∀ a b : List Char, pyStrLt a b = true → pyStrLt b a = false := by
  intro a
  induction a with
  | nil =>
    intro b h
    cases b with
    | nil => simp [pyStrLt] at h
    | cons c cs => simp [pyStrLt]
  | cons x xs ih =>
    intro b h
    cases b with
    | nil => simp [pyStrLt] at h
    | cons y ys =>
      unfold pyStrLt at h ⊢
      by_cases hxy : x < y
      · have hyx : ¬ y < x := lt_asymm hxy
        simp [hxy, hyx]
      · by_cases hyx : y < x
        · simp [hxy, hyx] at h
        · simp only [if_neg hxy, if_neg hyx] at h
          simp only [if_neg hyx, if_neg hxy]
          exact ih ys h

/-- Every key of `chosenSet m aid card` is a key of `m` or is `aid`. -/
theorem chosenSet_keys_subset (m : Chosen) (aid : Int) (card : RawCard) :
    ∀ x ∈ (chosenSet m aid card).map (fun p => p.1),
      x ∈ m.map (fun p => p.1) ∨ x = aid := by
  induction m with
  | nil => simp [chosenSet]
  | cons p rest ih =>
    rcases p with ⟨k, c⟩
    intro x hx
    by_cases hk : k = aid
    · subst hk
      simp only [chosenSet, beq_self_eq_true, if_pos rfl, List.map_cons,
        List.mem_cons] at hx
      refine Or.inl ?_
      simpa using hx
    · have hk' : (k == aid) = false := by simpa using hk
      simp only [chosenSet, hk', Bool.false_eq_true, if_false, List.map_cons,
        List.mem_cons] at hx
      rcases hx with hx | hx
      · simp [hx]
      · rcases ih x hx with h1 | h1
        · exact Or.inl (by simp [h1])
        · exact Or.inr h1

/-- `chosenSet` preserves distinctness of the retained keys. -/
theorem chosenSet_keys_nodup (m : Chosen) (aid : Int) (card : RawCard)
    (h : (m.map (fun p => p.1)).Nodup) :
    ((chosenSet m aid card).map (fun p => p.1)).Nodup := by
  induction m with
  | nil => simp [chosenSet]
  | cons p rest ih =>
    rcases p with ⟨k, c⟩
    simp only [List.map_cons, List.nodup_cons] at h
    by_cases hk : k = aid
    · subst hk
      simpa [chosenSet] using h
    · have hk' : (k == aid) = false := by simpa using hk
      simp only [chosenSet, hk', Bool.false_eq_true, if_false, List.map_cons,
        List.nodup_cons]
      refine ⟨fun hmem => ?_, ih h.2⟩
      rcases chosenSet_keys_subset rest aid card k hmem with h1 | h1
      · exact h.1 h1
      · exact hk h1

/-- One merge step preserves distinctness of the retained keys. -/
theorem mergeStep_keys_nodup (m : Chosen) (card : RawCard)
    (h : (m.map (fun p => p.1)).Nodup) :
    ((mergeStep m card).map (fun p => p.1)).Nodup := by
  cases haid : card.arena_id with
  | none => simpa [mergeStep, haid] using h
  | some aid =>
    cases hget : chosenGet m aid with
    | some cur =>
      by_cases hp : prefer card cur
      · simpa [mergeStep, haid, hget, hp] using chosenSet_keys_nodup m aid card h
      · simpa [mergeStep, haid, hget, hp] using h
    | none => simpa [mergeStep, haid, hget] using chosenSet_keys_nodup m aid card h

/-- The merge fold preserves distinctness of the retained keys. -/
theorem foldl_mergeStep_keys_nodup (cards : List RawCard) (m : Chosen)
    (h : (m.map (fun p => p.1)).Nodup) :
    ((cards.foldl mergeStep m).map (fun p => p.1)).Nodup := by
  induction cards generalizing m with
  | nil => exact h
  | cons card rest ih =>
    exact ih (mergeStep m card) (mergeStep_keys_nodup m card h)

/-- C8: the metadata merge retains exactly one record per item id (distinct
keys); with two candidates for the same id, a non-promo candidate beats a
promo one in either input order, and when both or neither are promo the one
with the strictly lexicographically greater release-date string is retained
in either input order. -/
theorem mapping_tiebreak :
    (∀ cards : List RawCard, ((write_mapping cards).map (fun p => p.1)).Nodup)
    ∧ (∀ c1 c2 : RawCard, ∀ aid : Int,
        c1.arena_id = some aid → c2.arena_id = some aid →
        c1.set_type = "promo" → c2.set_type ≠ "promo" →
        write_mapping [c1, c2] = [(aid, c2)] ∧ write_mapping [c2, c1] = [(aid, c2)])
    ∧ (∀ c1 c2 : RawCard, ∀ aid : Int,
        c1.arena_id = some aid → c2.arena_id = some aid →
        (c1.set_type = "promo" ↔ c2.set_type = "promo") →
        pyStrLt c1.released_at.data c2.released_at.data = true →
        write_mapping [c1, c2] = [(aid, c2)] ∧ write_mapping [c2, c1] = [(aid, c2)]) := by
  refine ⟨fun cards => foldl_mergeStep_keys_nodup cards [] (by simp), ?_, ?_⟩
  · intro c1 c2 aid h1 h2 hp1 hp2
    constructor
    · simp [write_mapping, mergeStep, h1, h2, chosenGet, chosenSet, prefer, hp1, hp2]
    · simp [write_mapping, mergeStep, h1, h2, chosenGet, chosenSet, prefer, hp1, hp2]
  · intro c1 c2 aid h1 h2 hiff hlt
    have hlt21 : pyStrLt c2.released_at.data c1.released_at.data = false :=
      pyStrLt_asymm _ _ hlt
    by_cases hp : c1.set_type = "promo"
    · have hp2 : c2.set_type = "promo" := hiff.1 hp
      constructor
      · simp [write_mapping, mergeStep, h1, h2, chosenGet, chosenSet, prefer,
          hp, hp2, pyStrGe, hlt, hlt21]
      · simp [write_mapping, mergeStep, h1, h2, chosenGet, chosenSet, prefer,
          hp, hp2, pyStrGe, hlt, hlt21]
    · have hp2 : ¬ c2.set_type = "promo" := fun hc => hp (hiff.2 hc)
      constructor
      · simp [write_mapping, mergeStep, h1, h2, chosenGet, chosenSet, prefer,
          hp, hp2, pyStrGe, hlt, hlt21]
      · simp [write_mapping, mergeStep, h1, h2, chosenGet, chosenSet, prefer,
          hp, hp2, pyStrGe, hlt, hlt21]

/-- Witness for C8: a promo 2020 candidate loses to a non-promo 2021
candidate for item 1. -/
theorem mapping_tiebreak_witness :
    write_mapping [⟨some 1, "A", "s1", "r", "promo", "2020-01-01"⟩,
        ⟨some 1, "A", "s2", "r", "expansion", "2021-01-01"⟩]
      = [(1, ⟨some 1, "A", "s2", "r", "expansion", "2021-01-01"⟩)] :=
  (mapping_tiebreak.2.1 ⟨some 1, "A", "s1", "r", "promo", "2020-01-01"⟩
      ⟨some 1, "A", "s2", "r", "expansion", "2021-01-01"⟩ 1 rfl rfl rfl
      (by decide)).1

/-! ## Claim C9 -/

/-- C9: a poll cycle whose observed file identity differs from the last
seen identity, or whose size shrank, reads from offset 0; and the concrete
rotation scenario — write `"first\n"`, replace the file (new inode) with
`"second\n"` — yields exactly the lines `"first"` then `"second"`, none
lost, none duplicated. -/
theorem tailer_rotation :
    (∀ (st : TailState) (f : FSnap),
      ((st.inode ≠ none ∧ st.inode ≠ some f.ino) ∨ f.content.length < st.lastSize) →
      effOffset st f = 0)
    ∧ (followAll initTail [some ⟨1, "first\n"⟩, some ⟨2, "second\n"⟩]).2
        = ["first", "second"] := by
  constructor
  · intro st f h
    unfold effOffset
    rw [if_pos h]
  · rfl

/-- Witness for C9: the second poll of the scenario (inode 1 last seen,
file now has inode 2) resets the offset to 0. -/
theorem tailer_rotation_witness :
    effOffset ⟨6, some 1, 6⟩ ⟨2, "second\n"⟩ = 0 ∧
    (followAll initTail [some ⟨1, "first\n"⟩, some ⟨2, "second\n"⟩]).2
      = ["first", "second"] :=
  ⟨tailer_rotation.1 ⟨6, some 1, 6⟩ ⟨2, "second\n"⟩ (Or.inl ⟨by decide, by decide⟩),
    tailer_rotation.2⟩

end MTGA
